import Mathlib

/-!
# A shallow embedding of `convert_ios.py`

This file models the aggregation/merge core of the AppleLocalization
converter: the SQLite store (`Files` and `Localizations` tables with a
dynamic set of language columns), the schema evolver `add_language`, the
file registrar `add_file`, the record merger `add_text_item`, and the
driver `convert`.

Modelling conventions:
* SQL `NULL` is `Option.none`; XML element text is `Option String`
  (an element with no text yields Python `None`).
* `sqlite3` exceptions are the inductive `SqlError`; the constructors
  tagged by `SqlError.isOperational` are the ones belonging to the
  `sqlite3.OperationalError` class (the class caught by `add_language`),
  the others model `sqlite3.IntegrityError` and plain Python exceptions.
* A statement that raises leaves the store unchanged (SQLite aborts the
  failing statement); the `with db:` transaction of `add_text_item` is
  modelled by the caller keeping the pre-call store whenever the call
  returns `.error`.
* Column names interpolated into SQL text are modelled as the language
  columns of the `Localizations` relation; an identifier that does not
  lex as one plain token (first character a letter or underscore, the
  rest alphanumeric or underscore) raises an operational parse error,
  as SQLite does for identifiers such as `4fun` or `fr-CA`.  Identifiers
  that collide with SQL keywords or contain spaces are outside the model
  and are not used in any theorem below.
* On an `INSERT` that lists the same column twice SQLite keeps the first
  listed value; the row constructed by `insertLoc` reproduces this by
  testing the base-language column first.
* `UPDATE` row counts (`cursor.rowcount`) count the rows matched by the
  `WHERE` clause, even when the stored value is unchanged.
-/

namespace AppleLocalization

/-- `format_language`: replace every hyphen by an underscore
(`lang.replace('-', '_')`). -/
def format_language (lang : String) : String :=
  ⟨lang.data.map (fun c => if c = '-' then '_' else c)⟩

/-- An identifier that lexes as a single plain SQL identifier token. -/
def validIdent (s : String) : Bool :=
  match s.data with
  | [] => false
  | c :: cs => (c.isAlpha || c == '_') && cs.all (fun d => d.isAlphanum || d == '_')

/-- Errors surfaced by the embedded store and driver.  The first three
constructors model `sqlite3.OperationalError`; `notNull` and
`uniqueViolation` model `sqlite3.IntegrityError`; `indexError` and
`stopIteration` model the Python exceptions raised by `files[0]` and by
`next(xml.iter('tran'))` in `convert` / `get_language`. -/
inductive SqlError where
  | duplicateColumn (c : String)
  | parseError (c : String)
  | noSuchColumn (c : String)
  | notNull (c : String)
  | uniqueViolation
  | foreignKeyViolation
  | indexError
  | stopIteration
deriving Repr, DecidableEq

/-- Membership in the `sqlite3.OperationalError` exception class. -/
def SqlError.isOperational : SqlError → Bool
  | .duplicateColumn _ => true
  | .parseError _ => true
  | .noSuchColumn _ => true
  | _ => false

/-- A row of the `Files` table. -/
structure FileRow where
  id : Nat
  project : String
  path : String
deriving Repr, DecidableEq

/-- A row of the `Localizations` table: the fixed columns plus one entry
per language column of the current schema, in schema order. -/
structure LocRow where
  file_id : Nat
  position : String
  description : Option String
  langs : List (String × Option String)
deriving Repr, DecidableEq

/-- The SQLite store: the language columns of `Localizations` (the
dynamic part of its schema), the `Files` rows, the next `AUTOINCREMENT`
file id, and the `Localizations` rows. -/
structure DB where
  schema : List String
  files : List FileRow
  nextFileId : Nat
  locs : List LocRow
deriving Repr, DecidableEq

/-- `create_table`: the store produced by the `CREATE TABLE` script —
empty tables, the single mandatory language column `en`. -/
def create_table : DB :=
  { schema := ["en"], files := [], nextFileId := 1, locs := [] }

/-- `add_file`: look up the file by path; on a miss insert
`(project, path)` and return the fresh id.  `project` and `path` are
`NOT NULL`; a `NULL` path also never matches the `WHERE path = ?`
lookup (SQL three-valued equality). -/
def add_file (db : DB) (project path : Option String) :
    Except SqlError (DB × Nat) :=
  match db.files.find? (fun r => path == some r.path) with
  | some r => .ok (db, r.id)
  | none =>
    match project, path with
    | some proj, some p =>
      .ok ({ db with
               files := db.files ++ [⟨db.nextFileId, proj, p⟩],
               nextFileId := db.nextFileId + 1 }, db.nextFileId)
    | none, _ => .error (.notNull "project")
    | _, none => .error (.notNull "path")

/-- The fixed (non-language) columns of `Localizations`. -/
def fixedColumns : List String := ["file_id", "position", "description"]

/-- The raw `ALTER TABLE Localizations ADD COLUMN {c} TEXT` statement:
fails on a malformed identifier or a duplicate column, else appends the
column (existing rows read `NULL` in it). -/
def rawAddColumn (db : DB) (c : String) : Except SqlError DB :=
  if !validIdent c then .error (.parseError c)
  else if db.schema.contains c || fixedColumns.contains c then
    .error (.duplicateColumn c)
  else
    .ok { db with
            schema := db.schema ++ [c],
            locs := db.locs.map (fun r => { r with langs := r.langs ++ [(c, none)] }) }

/-- `add_language`: run the `ALTER TABLE` and swallow any
`sqlite3.OperationalError` (`except sqlite3.OperationalError: pass`). -/
def add_language (db : DB) (language : String) : Except SqlError DB :=
  match rawAddColumn db language with
  | .ok db' => .ok db'
  | .error e => if e.isOperational then .ok db else .error e

/-- The `WHERE file_id = ? AND position = ?` predicate of the merge
statements; a `NULL` position parameter matches no row. -/
def rowMatch (fid : Nat) (pos : Option String) (r : LocRow) : Bool :=
  r.file_id == fid && pos == some r.position

/-- Prepare-time validation of an interpolated column name. -/
def checkColumn (db : DB) (c : String) : Option SqlError :=
  if !validIdent c then some (.parseError c)
  else if !db.schema.contains c then some (.noSuchColumn c)
  else none

/-- `SET {c} = ?` on one row's column list. -/
def setCol (langs : List (String × Option String)) (c : String)
    (v : Option String) : List (String × Option String) :=
  langs.map (fun q => if q.1 == c then (q.1, v) else q)

/-- The effect of the `UPDATE` on one row. -/
def applyUpdate (c : String) (v : Option String) (fid : Nat)
    (pos : Option String) (r : LocRow) : LocRow :=
  if rowMatch fid pos r then { r with langs := setCol r.langs c v }
  else r

/-- `UPDATE Localizations SET {c} = ? WHERE file_id = ? AND position = ?`:
returns the updated store and the number of matched rows
(`cursor.rowcount`); setting the mandatory `en` column to `NULL` on a
matched row raises the `NOT NULL` integrity error. -/
def updateLoc (db : DB) (c : String) (v : Option String) (fid : Nat)
    (pos : Option String) : Except SqlError (DB × Nat) :=
  match checkColumn db c with
  | some e => .error e
  | none =>
    let n := db.locs.countP (fun r => rowMatch fid pos r)
    if c == "en" && v.isNone && n != 0 then .error (.notNull "en")
    else .ok ({ db with locs := db.locs.map (applyUpdate c v fid pos) }, n)

/-- `INSERT INTO Localizations (file_id, position, description, {b}, {t})
VALUES (?, ?, ?, ?, ?)`: every schema column of the new row is `NULL`
except the base- and target-language columns; when `b = t` the first
listed value (the base text) wins, as in SQLite.  `position` and `en`
are `NOT NULL`; `(file_id, position)` is covered by a unique index; and
since `create_table` runs `PRAGMA foreign_keys = ON`, `file_id` must
reference an existing `Files` row.  SQLite checks the NOT NULL
constraints before the foreign key, so a row violating both raises the
NOT NULL error. -/
def insertLoc (db : DB) (fid : Nat) (pos desc : Option String)
    (bLang : String) (bCont : Option String) (tLang : String)
    (tCont : Option String) : Except SqlError DB :=
  match checkColumn db bLang with
  | some e => .error e
  | none =>
  match checkColumn db tLang with
  | some e => .error e
  | none =>
  match pos with
  | none => .error (.notNull "position")
  | some p =>
    if db.locs.any (fun r => r.file_id == fid && r.position == p) then
      .error .uniqueViolation
    else
      let langs := db.schema.map (fun c =>
        (c, if c == bLang then bCont else if c == tLang then tCont else none))
      if langs.any (fun q => q.1 == "en" && q.2.isNone) then
        .error (.notNull "en")
      else if !db.files.any (fun f => f.id == fid) then
        .error .foreignKeyViolation
      else .ok { db with locs := db.locs ++ [⟨fid, p, desc, langs⟩] }

/-- One iteration of the merge loop of `add_text_item`: the `UPDATE`,
then — when it matched no row — the `INSERT`.  Returns the store, the
update's row count and whether the insert ran. -/
def merge1 (db : DB) (fid : Nat) (pos desc : Option String)
    (bLang : String) (bCont : Option String) (tLang : String)
    (tCont : Option String) : Except SqlError (DB × Nat × Bool) :=
  match updateLoc db tLang tCont fid pos with
  | .error e => .error e
  | .ok (db1, n) =>
    if n != 0 then .ok (db1, n, false)
    else
      match insertLoc db1 fid pos desc bLang bCont tLang tCont with
      | .error e => .error e
      | .ok db2 => .ok (db2, n, true)

/-- A `tran` (or the `base`) element of a `TranslationSet`: a `loc`
attribute and optional text content. -/
structure Tran where
  loc : String
  content : Option String
deriving Repr, DecidableEq

/-- A `TextItem` element. -/
structure TextItem where
  description : Option String
  position : Option String
  base : Tran
  trans : List Tran
deriving Repr, DecidableEq

/-- A `File` element of a localization project document. -/
structure LgFile where
  filepath : Option String
  textItems : List TextItem
deriving Repr, DecidableEq

/-- A `*.lg` localization project document. -/
structure LgDoc where
  projName : Option String
  files : List LgFile
deriving Repr, DecidableEq

/-- The `for tran in translation_set.findall('tran')` loop body of
`add_text_item`, threading the store through the pairs. -/
def mergeTrans (db : DB) (fid : Nat) (pos desc : Option String)
    (bLang : String) (bCont : Option String) :
    List Tran → Except SqlError DB
  | [] => .ok db
  | t :: ts =>
    match merge1 db fid pos desc bLang bCont (format_language t.loc) t.content with
    | .error e => .error e
    | .ok (db1, _, _) => mergeTrans db1 fid pos desc bLang bCont ts

/-- `add_text_item`: merge every translation pair of one text item.  The
loop runs inside `with db:`; an `.error` result means the transaction
was rolled back, so the caller's pre-call store is the committed one. -/
def add_text_item (db : DB) (item : TextItem) (fid : Nat) :
    Except SqlError DB :=
  mergeTrans db fid item.position item.description
    (format_language item.base.loc) item.base.content item.trans

/-- A sequence of text items processed against one store (the inner loop
of `add_localization_project`): each item commits on success; the first
failing item rolls back and aborts, leaving the last committed store. -/
def runItems (db : DB) (fid : Nat) : List TextItem → DB × Option SqlError
  | [] => (db, none)
  | it :: its =>
    match add_text_item db it fid with
    | .error e => (db, some e)
    | .ok db1 => runItems db1 fid its

/-- Observable calls of a driver run: an `add_language` call, or the
execution of one merge iteration's statements (which reference the base-
and target-language columns) for one translation pair. -/
inductive Event where
  | ensureLang (l : String)
  | mergePair (fid : Nat) (pos : Option String) (bLang tLang : String)
deriving Repr, DecidableEq

/-- Whether an event is an `add_language` call. -/
def Event.isEnsure : Event → Bool
  | .ensureLang _ => true
  | _ => false

/-- The merge loop of `add_text_item`, instrumented with the trace of
executed merge iterations. -/
def mergeTransEv (db : DB) (fid : Nat) (pos desc : Option String)
    (bLang : String) (bCont : Option String) :
    List Tran → List Event × Except SqlError DB
  | [] => ([], .ok db)
  | t :: ts =>
    let e := Event.mergePair fid pos bLang (format_language t.loc)
    match merge1 db fid pos desc bLang bCont (format_language t.loc) t.content with
    | .error err => ([e], .error err)
    | .ok (db1, _, _) =>
      let r := mergeTransEv db1 fid pos desc bLang bCont ts
      (e :: r.1, r.2)

/-- `add_text_item`, instrumented. -/
def add_text_itemEv (db : DB) (item : TextItem) (fid : Nat) :
    List Event × Except SqlError DB :=
  mergeTransEv db fid item.position item.description
    (format_language item.base.loc) item.base.content item.trans

/-- The text-item loop of `add_localization_project`, instrumented. -/
def itemsEv (db : DB) (fid : Nat) : List TextItem → List Event × Except SqlError DB
  | [] => ([], .ok db)
  | it :: its =>
    match add_text_itemEv db it fid with
    | (evs, .error e) => (evs, .error e)
    | (evs, .ok db1) =>
      let r := itemsEv db1 fid its
      (evs ++ r.1, r.2)

/-- The file loop of `add_localization_project`, instrumented. -/
def filesEv (db : DB) (project : Option String) :
    List LgFile → List Event × Except SqlError DB
  | [] => ([], .ok db)
  | f :: fs =>
    match add_file db project f.filepath with
    | .error e => ([], .error e)
    | .ok (db1, fid) =>
      match itemsEv db1 fid f.textItems with
      | (evs, .error e) => (evs, .error e)
      | (evs, .ok db2) =>
        let r := filesEv db2 project fs
        (evs ++ r.1, r.2)

/-- `add_localization_project`, instrumented. -/
def add_localization_projectEv (db : DB) (doc : LgDoc) :
    List Event × Except SqlError DB :=
  filesEv db doc.projName doc.files

/-- The document loop of `convert`, instrumented. -/
def docsEv (db : DB) : List LgDoc → List Event × Except SqlError DB
  | [] => ([], .ok db)
  | d :: ds =>
    match add_localization_projectEv db d with
    | (evs, .error e) => (evs, .error e)
    | (evs, .ok db1) =>
      let r := docsEv db1 ds
      (evs ++ r.1, r.2)

/-- The first `tran` element of a document, in document order
(`next(xml.iter('tran'))`). -/
def firstTran (d : LgDoc) : Option Tran :=
  (d.files.map (fun f => (f.textItems.map (fun it => it.trans)).flatten)).flatten.head?

/-- `get_language`: the normalized `loc` of the document's first `tran`
element; `none` models the `StopIteration` escape when there is none. -/
def get_language (d : LgDoc) : Option String :=
  (firstTran d).map (fun t => format_language t.loc)

/-- `convert`: detect the export language from the first document, call
`add_language` once for it, then process every document.  Returns the
trace of `add_language` calls and executed merge iterations. -/
def convert (db : DB) (dmg : List LgDoc) : List Event × Except SqlError DB :=
  match dmg with
  | [] => ([], .error .indexError)
  | d :: ds =>
    match get_language d with
    | none => ([], .error .stopIteration)
    | some lang =>
      match add_language db lang with
      | .error e => ([Event.ensureLang lang], .error e)
      | .ok db1 =>
        let r := docsEv db1 (d :: ds)
        (Event.ensureLang lang :: r.1, r.2)

/-- At most one `Localizations` row per `(file_id, position)` key. -/
def noDupKeys : List LocRow → Bool
  | [] => true
  | r :: rs =>
    rs.all (fun s => !(s.file_id == r.file_id && s.position == r.position)) && noDupKeys rs

/-- The stored value of column `c` on a row, when the row carries it. -/
def getCol (langs : List (String × Option String)) (c : String) :
    Option (Option String) :=
  (langs.find? (fun q => q.1 == c)).map Prod.snd

/-- Whether an error is the duplicate-column condition. -/
def SqlError.isDuplicate : SqlError → Bool
  | .duplicateColumn _ => true
  | _ => false

/-! ### Concrete stores and documents used to evaluate the claims -/

/-- The store after `create_table` and `add_language` for `fr`. -/
def dbEnFr : DB := ((add_language create_table "fr").toOption).getD create_table

/-- The store after `create_table` and `add_language` for `fr` and `de`. -/
def dbEnFrDe : DB := ((add_language dbEnFr "de").toOption).getD dbEnFr

/-- The store after registering path `A/B.strings` under project `App`
(file id `1`). -/
def dbFileApp : DB :=
  match add_file create_table (some "App") (some "A/B.strings") with
  | .ok (d, _) => d
  | .error _ => create_table

/-- `dbFileApp` after `add_language` for `fr`: file `1` registered, the
`fr` column present. -/
def dbFrFile : DB := ((add_language dbFileApp "fr").toOption).getD dbFileApp

/-- `dbFrFile` after `add_language` for `de`. -/
def dbFrDeFile : DB := ((add_language dbFrFile "de").toOption).getD dbFrFile

/-- `dbFrFile` after merging
`(fileId 1, position "0", description "first", en "Hello", fr "Bonjour")`. -/
def dbDescFirst : DB :=
  match merge1 dbFrFile 1 (some "0") (some "first") "en" (some "Hello") "fr" (some "Bonjour") with
  | .ok (d, _, _) => d
  | .error _ => dbFrFile

/-- `dbFileApp` after merging the pair with base `("en", "Hello")` and
target `("en", NULL)` — the target column coincides with the base column. -/
def dbEnNullTarget : DB :=
  match merge1 dbFileApp 1 (some "0") (some "d") "en" (some "Hello") "en" none with
  | .ok (d, _, _) => d
  | .error _ => dbFileApp

/-- `dbFrDeFile` after merging the `fr` pair of the spec's scenario. -/
def dbScenarioFr : DB :=
  match merge1 dbFrDeFile 1 (some "0") (some "title") "en" (some "Hello") "fr" (some "Bonjour") with
  | .ok (d, _, _) => d
  | .error _ => dbFrDeFile

/-- `dbScenarioFr` after merging the `de` pair of the spec's scenario. -/
def dbScenarioDe : DB :=
  match merge1 dbScenarioFr 1 (some "0") (some "title") "en" (some "Hello") "de" (some "Hallo") with
  | .ok (d, _, _) => d
  | .error _ => dbScenarioFr

/-- A one-document archive: project `App`, one file, one text item with
base `("en", "Hello")` and a single target translation `("fr", "Bonjour")`. -/
def docEnFr : LgDoc :=
  { projName := some "App",
    files := [{ filepath := some "a.strings",
                textItems := [{ description := some "d", position := some "0",
                                base := ⟨"en", some "Hello"⟩,
                                trans := [⟨"fr", some "Bonjour"⟩] }] }] }

/-- A text item merged without error by `runItems` on `dbFrFile`. -/
def itemGood : TextItem :=
  { description := some "d", position := some "0",
    base := ⟨"en", some "Hello"⟩, trans := [⟨"fr", some "Bonjour"⟩] }

/-- A text item whose first pair merges but whose second pair hits a
column (`de`) missing from `dbFrFile`'s schema. -/
def itemBad : TextItem :=
  { description := some "e", position := some "1",
    base := ⟨"en", some "Bye"⟩,
    trans := [⟨"fr", some "Au revoir"⟩, ⟨"de", some "Tschuess"⟩] }

/-- The store `dbFrFile` after processing `itemGood` as one text item. -/
def dbItemGood : DB :=
  match add_text_item dbFrFile itemGood 1 with
  | .ok d => d
  | .error _ => dbFrFile

/-- The result of `add_language` as a total function: the column is added
exactly when the identifier is well-formed and fresh. -/
def addLangResult (db : DB) (l : String) : DB :=
  if validIdent l && !(db.schema.contains l || fixedColumns.contains l) then
    { db with
        schema := db.schema ++ [l],
        locs := db.locs.map (fun r => { r with langs := r.langs ++ [(l, none)] }) }
  else db

/-- Distinct `(file_id, position)` keys, oriented as `noDupKeys` checks. -/
def KeyDistinct (a b : LocRow) : Prop :=
  ¬(b.file_id = a.file_id ∧ b.position = a.position)

/-- `dbFrFile` after merging a pair whose base language is `fr` and whose
target language is `en`. -/
def dbBaseFr : DB :=
  match merge1 dbFrFile 1 (some "0") (some "d") "fr" (some "Bonjour") "en" (some "Hello") with
  | .ok (d, _, _) => d
  | .error _ => dbFrFile

/-- `dbItemGood` after the successful first (`fr`) pair of `itemBad` —
an uncommitted intermediate state inside that item's transaction. -/
def dbPartialBad : DB :=
  match merge1 dbItemGood 1 (some "1") (some "e") "en" (some "Bye") "fr" (some "Au revoir") with
  | .ok (d, _, _) => d
  | .error _ => dbItemGood

/-- The export language `convert` detects: the normalized first `tran`
locale of the first document, when both exist. -/
def detectedLanguage (dmg : List LgDoc) : Option String :=
  dmg.head?.bind get_language

/-! ### Helper lemmas -/

theorem add_language_eq (db : DB) (l : String) :
    add_language db l = .ok (addLangResult db l) := by
  unfold add_language rawAddColumn addLangResult
  by_cases hv : validIdent l
  · by_cases hc : l ∈ db.schema ∨ l ∈ fixedColumns
    · simp [hv, hc, SqlError.isOperational]
      rw [if_neg (by tauto)]
    · rw [not_or] at hc
      simp [hv, hc.1, hc.2]
  · simp [Bool.not_eq_true] at hv
    simp [hv, SqlError.isOperational]

theorem updateLoc_ok (db db' : DB) (c : String) (v : Option String)
    (fid : Nat) (pos : Option String) (n : Nat)
    (h : updateLoc db c v fid pos = .ok (db', n)) :
    db' = { db with locs := db.locs.map (applyUpdate c v fid pos) } ∧
    n = db.locs.countP (fun r => rowMatch fid pos r) ∧
    checkColumn db c = none ∧
    (c == "en" && v.isNone &&
      (db.locs.countP (fun r => rowMatch fid pos r) != 0)) = false := by
  unfold updateLoc at h
  cases hcc : checkColumn db c with
  | some e => simp [hcc] at h
  | none =>
    simp only [hcc] at h
    split at h
    · exact absurd h (by simp)
    · next hcond =>
      simp only [Except.ok.injEq, Prod.mk.injEq] at h
      exact ⟨h.1.symm, h.2.symm, rfl, by simpa using hcond⟩

theorem insertLoc_ok (db db' : DB) (fid : Nat) (pos desc : Option String)
    (bLang : String) (bCont : Option String) (tLang : String)
    (tCont : Option String)
    (h : insertLoc db fid pos desc bLang bCont tLang tCont = .ok db') :
    ∃ p, pos = some p ∧
      db' = { db with locs := db.locs ++ [⟨fid, p, desc,
                db.schema.map (fun c =>
                  (c, if c == bLang then bCont
                      else if c == tLang then tCont else none))⟩] } ∧
      db.locs.any (fun r => r.file_id == fid && r.position == p) = false ∧
      (db.schema.map (fun c =>
          (c, if c == bLang then bCont
              else if c == tLang then tCont else none))).any
        (fun q => q.1 == "en" && q.2.isNone) = false ∧
      db.files.any (fun f => f.id == fid) = true := by
  unfold insertLoc at h
  cases hb : checkColumn db bLang with
  | some e => simp [hb] at h
  | none =>
  cases ht : checkColumn db tLang with
  | some e => simp [hb, ht] at h
  | none =>
    simp only [hb, ht] at h
    cases pos with
    | none => simp at h
    | some p =>
      refine ⟨p, rfl, ?_⟩
      simp only at h
      split at h
      · exact absurd h (by simp)
      · next hany =>
        split at h
        · exact absurd h (by simp)
        · next hnn =>
          split at h
          · exact absurd h (by simp)
          · next hfk =>
            simp only [Except.ok.injEq] at h
            exact ⟨h.symm, by simpa using hany, by simpa using hnn,
              by simpa using hfk⟩

theorem merge1_cases (db db' : DB) (fid : Nat) (pos desc : Option String)
    (bL : String) (bC : Option String) (tL : String) (tC : Option String)
    (n : Nat) (ins : Bool)
    (h : merge1 db fid pos desc bL bC tL tC = .ok (db', n, ins)) :
    ∃ dbu, updateLoc db tL tC fid pos = .ok (dbu, n) ∧
      ((n ≠ 0 ∧ ins = false ∧ db' = dbu) ∨
       (n = 0 ∧ ins = true ∧ insertLoc dbu fid pos desc bL bC tL tC = .ok db')) := by
  unfold merge1 at h
  cases hu : updateLoc db tL tC fid pos with
  | error e => simp [hu] at h
  | ok r =>
    obtain ⟨dbu, m⟩ := r
    simp only [hu] at h
    by_cases hn : m ≠ 0
    · rw [if_pos (by simpa using hn)] at h
      simp only [Except.ok.injEq, Prod.mk.injEq] at h
      obtain ⟨h1, h2, h3⟩ := h
      subst h1; subst h2; subst h3
      exact ⟨dbu, rfl, Or.inl ⟨hn, rfl, rfl⟩⟩
    · have hm0 : m = 0 := not_not.mp hn
      subst hm0
      rw [if_neg (by simp)] at h
      cases hi : insertLoc dbu fid pos desc bL bC tL tC with
      | error e => simp [hi] at h
      | ok db2 =>
        simp only [hi, Except.ok.injEq, Prod.mk.injEq] at h
        obtain ⟨h1, h2, h3⟩ := h
        subst h1; subst h2; subst h3
        exact ⟨dbu, rfl, Or.inr ⟨rfl, rfl, hi⟩⟩

theorem rowMatch_applyUpdate (c : String) (v : Option String)
    (fid fid' : Nat) (pos pos' : Option String) (r : LocRow) :
    rowMatch fid' pos' (applyUpdate c v fid pos r) = rowMatch fid' pos' r := by
  unfold rowMatch applyUpdate
  split <;> simp

theorem applyUpdate_fields (c : String) (v : Option String) (fid : Nat)
    (pos : Option String) (r : LocRow) :
    (applyUpdate c v fid pos r).file_id = r.file_id ∧
    (applyUpdate c v fid pos r).position = r.position ∧
    (applyUpdate c v fid pos r).description = r.description := by
  unfold applyUpdate
  split <;> simp

theorem countP_map_applyUpdate (c : String) (v : Option String)
    (fid fid' : Nat) (pos pos' : Option String) (l : List LocRow) :
    (l.map (applyUpdate c v fid pos)).countP (fun r => rowMatch fid' pos' r) =
    l.countP (fun r => rowMatch fid' pos' r) := by
  induction l with
  | nil => rfl
  | cons r rs ih =>
    simp only [List.map_cons, List.countP_cons, ih, rowMatch_applyUpdate]

theorem map_applyUpdate_eq_self (c : String) (v : Option String) (fid : Nat)
    (pos : Option String) (l : List LocRow)
    (h : l.countP (fun r => rowMatch fid pos r) = 0) :
    l.map (applyUpdate c v fid pos) = l := by
  induction l with
  | nil => rfl
  | cons r rs ih =>
    simp only [List.countP_cons] at h
    have hr : rowMatch fid pos r = false := by
      by_contra hb
      simp only [Bool.not_eq_false] at hb
      simp [hb] at h
    have hrs : rs.countP (fun r => rowMatch fid pos r) = 0 := by
      simp [hr] at h
      exact List.countP_eq_zero.mpr (by simpa using h)
    simp only [List.map_cons, ih hrs]
    unfold applyUpdate
    rw [if_neg (by simp [hr])]

theorem merge1_frame (db db' : DB) (fid : Nat) (pos desc : Option String)
    (bL : String) (bC : Option String) (tL : String) (tC : Option String)
    (n : Nat) (ins : Bool)
    (h : merge1 db fid pos desc bL bC tL tC = .ok (db', n, ins)) :
    db'.schema = db.schema ∧ db'.files = db.files ∧
    db'.nextFileId = db.nextFileId := by
  obtain ⟨dbu, hu, hcase⟩ := merge1_cases db db' fid pos desc bL bC tL tC n ins h
  obtain ⟨hdbu, -, -, -⟩ := updateLoc_ok db dbu tL tC fid pos n hu
  rcases hcase with ⟨-, -, hdb'⟩ | ⟨-, -, hi⟩
  · subst hdb'; subst hdbu; exact ⟨rfl, rfl, rfl⟩
  · obtain ⟨p, -, hdb', -, -, -⟩ := insertLoc_ok dbu db' fid pos desc bL bC tL tC hi
    subst hdb'; subst hdbu; exact ⟨rfl, rfl, rfl⟩

theorem mergeTrans_frame (fid : Nat) (pos desc : Option String) (bL : String)
    (bC : Option String) : ∀ (ts : List Tran) (db db' : DB),
    mergeTrans db fid pos desc bL bC ts = .ok db' →
    db'.schema = db.schema ∧ db'.files = db.files ∧
    db'.nextFileId = db.nextFileId := by
  intro ts
  induction ts with
  | nil =>
    intro db db' h
    simp only [mergeTrans, Except.ok.injEq] at h
    subst h; exact ⟨rfl, rfl, rfl⟩
  | cons t ts ih =>
    intro db db' h
    simp only [mergeTrans] at h
    cases hm : merge1 db fid pos desc bL bC (format_language t.loc) t.content with
    | error e => simp [hm] at h
    | ok r =>
      obtain ⟨db1, n, i⟩ := r
      simp only [hm] at h
      obtain ⟨h1, h2, h3⟩ := merge1_frame db db1 fid pos desc bL bC
        (format_language t.loc) t.content n i hm
      obtain ⟨g1, g2, g3⟩ := ih db1 db' h
      exact ⟨g1.trans h1, g2.trans h2, g3.trans h3⟩

theorem noDupKeys_iff : ∀ l : List LocRow, noDupKeys l = true ↔ l.Pairwise KeyDistinct := by
  intro l
  induction l with
  | nil => simp [noDupKeys]
  | cons r rs ih =>
    simp [noDupKeys, List.all_eq_true, List.pairwise_cons, ih, KeyDistinct]
    intro _
    constructor
    · intro h x hx
      have := h x hx
      tauto
    · intro h x hx
      have := h x hx
      tauto

theorem setCol_cons (q : String × Option String) (qs : List (String × Option String))
    (c : String) (v : Option String) :
    setCol (q :: qs) c v = (if (q.1 == c) = true then (q.1, v) else q) :: setCol qs c v := rfl

theorem getCol_cons (p : String × Option String) (ps : List (String × Option String))
    (c : String) :
    getCol (p :: ps) c = if (p.1 == c) = true then some p.2 else getCol ps c := by
  unfold getCol
  cases hp : p.1 == c <;> simp [List.find?_cons, hp]

theorem getCol_setCol_ne (c c' : String) (v : Option String) (h : c' ≠ c) :
    ∀ langs, getCol (setCol langs c v) c' = getCol langs c' := by
  intro langs
  induction langs with
  | nil => rfl
  | cons q qs ih =>
    rw [setCol_cons, getCol_cons, getCol_cons]
    by_cases hq : (q.1 == c) = true
    · rw [if_pos hq]
      have hne : (q.1 == c') = false := by
        rw [beq_iff_eq] at hq
        rw [beq_eq_false_iff_ne, hq]
        exact fun e => h e.symm
      simp only [hne, Bool.false_eq_true, if_false]
      exact ih
    · rw [if_neg hq]
      cases hq' : (q.1 == c')
      · simp only [hq', Bool.false_eq_true, if_false]
        exact ih
      · simp only [hq', if_true]

theorem setCol_mem (c : String) (v : Option String) :
    ∀ langs (q' : String × Option String), q' ∈ setCol langs c v → q'.1 = c → q'.2 = v := by
  intro langs q' hmem hkey
  simp only [setCol, List.mem_map] at hmem
  obtain ⟨q, hq, rfl⟩ := hmem
  by_cases hqc : (q.1 == c) = true
  · simp [hqc]
  · rw [if_neg hqc] at hkey ⊢
    exact absurd (beq_iff_eq.mpr hkey) hqc

theorem setCol_eq_self (c : String) (v : Option String) :
    ∀ langs, (∀ q ∈ langs, q.1 = c → q.2 = v) → setCol langs c v = langs := by
  intro langs h
  induction langs with
  | nil => rfl
  | cons q qs ih =>
    rw [setCol_cons]
    have hqs := ih (fun x hx => h x (List.mem_cons_of_mem _ hx))
    rw [hqs]
    by_cases hqc : (q.1 == c) = true
    · rw [if_pos hqc]
      have := h q (List.mem_cons_self _ _) (beq_iff_eq.mp hqc)
      rw [← this]
    · rw [if_neg hqc]

theorem setCol_idem (c : String) (v : Option String) (langs : List (String × Option String)) :
    setCol (setCol langs c v) c v = setCol langs c v :=
  setCol_eq_self c v _ (setCol_mem c v langs)



theorem countP_rowMatch_le_one (fid : Nat) (pos : Option String) :
    ∀ l : List LocRow, noDupKeys l = true →
      l.countP (fun r => rowMatch fid pos r) ≤ 1 := by
  intro l
  induction l with
  | nil => intro _; simp
  | cons r rs ih =>
    intro h
    simp only [noDupKeys, Bool.and_eq_true] at h
    obtain ⟨hall, hrs⟩ := h
    rw [List.countP_cons]
    by_cases hr : rowMatch fid pos r = true
    · have h0 : rs.countP (fun s => rowMatch fid pos s) = 0 := by
        rw [List.countP_eq_zero]
        intro s hs hsm
        rw [List.all_eq_true] at hall
        have hd := hall s hs
        unfold rowMatch at hr hsm
        simp only [Bool.and_eq_true, beq_iff_eq] at hr hsm
        have h1 : s.file_id = r.file_id := hsm.1.trans hr.1.symm
        have h2 : s.position = r.position :=
          Option.some.inj (hsm.2.symm.trans hr.2)
        simp [h1, h2] at hd
      simp [h0, hr]
    · rw [Bool.not_eq_true] at hr
      simp only [hr]
      simpa using ih hrs

theorem noDupKeys_map_applyUpdate (c : String) (v : Option String)
    (fid : Nat) (pos : Option String) :
    ∀ l : List LocRow, noDupKeys (l.map (applyUpdate c v fid pos)) = noDupKeys l := by
  intro l
  induction l with
  | nil => rfl
  | cons r rs ih =>
    simp only [List.map_cons, noDupKeys, ih, List.all_map]
    congr 1
    have hfun : ((fun s => !(s.file_id == (applyUpdate c v fid pos r).file_id &&
          s.position == (applyUpdate c v fid pos r).position)) ∘ (applyUpdate c v fid pos)) =
        (fun s : LocRow => !(s.file_id == r.file_id && s.position == r.position)) := by
      funext s
      simp only [Function.comp_apply, (applyUpdate_fields c v fid pos s).1,
        (applyUpdate_fields c v fid pos s).2.1, (applyUpdate_fields c v fid pos r).1,
        (applyUpdate_fields c v fid pos r).2.1]
    rw [hfun]

theorem noDupKeys_append_one (row : LocRow) :
    ∀ l : List LocRow, noDupKeys l = true →
    (∀ r ∈ l, ¬(r.file_id = row.file_id ∧ r.position = row.position)) →
    noDupKeys (l ++ [row]) = true := by
  intro l
  induction l with
  | nil => intro _ _; simp [noDupKeys]
  | cons r rs ih =>
    intro h hk
    simp only [noDupKeys, Bool.and_eq_true] at h
    obtain ⟨hall, hrs⟩ := h
    simp only [List.cons_append, noDupKeys, Bool.and_eq_true, List.append_eq]
    refine ⟨?_, ih hrs (fun s hs => hk s (List.mem_cons_of_mem _ hs))⟩
    rw [List.all_append]
    simp only [Bool.and_eq_true]
    refine ⟨hall, ?_⟩
    simp only [List.all_cons, List.all_nil, Bool.and_true]
    have hkr := hk r (List.mem_cons_self _ _)
    rcases Decidable.em (row.file_id = r.file_id) with h1 | h1
    · have h2 : ¬ row.position = r.position := fun h2 => hkr ⟨h1.symm, h2.symm⟩
      simp [h2]
    · simp [h1]

/-- Claim C7 counterexample: the `ALTER TABLE` for the identifier `4fun`
fails with an operational failure that is not the duplicate-column
condition, yet `add_language` swallows it and reports success with the
schema unchanged — refuting that only duplicate-column failures are
suppressed. -/
theorem add_language_swallows_non_duplicate :
    rawAddColumn create_table "4fun" = .error (.parseError "4fun") ∧
    (SqlError.parseError "4fun").isDuplicate = false ∧
    add_language create_table "4fun" = .ok create_table :=
  ⟨rfl, rfl, rfl⟩

/-- Claim C7 (amended): `add_language` suppresses every operational
failure of the `ALTER TABLE` — the duplicate-column condition and any
other `sqlite3.OperationalError` — returning success with the store
unchanged; a non-operational failure would propagate unswallowed. -/
theorem add_language_error_policy (db : DB) (l : String) (e : SqlError)
    (h : rawAddColumn db l = .error e) :
    e.isOperational = true ∧ add_language db l = .ok db := by
  have hop : e.isOperational = true := by
    have h2 := h
    unfold rawAddColumn at h2
    split at h2
    · injection h2 with he; rw [← he]; rfl
    · split at h2
      · injection h2 with he; rw [← he]; rfl
      · exact absurd h2 (by simp)
  refine ⟨hop, ?_⟩
  unfold add_language
  simp [h, hop]

/-- Witness for `add_language_error_policy` at the duplicate-column
condition on the initial store. -/
theorem add_language_error_policy_witness :
    (SqlError.duplicateColumn "en").isOperational = true ∧
    add_language create_table "en" = .ok create_table :=
  add_language_error_policy create_table "en" (.duplicateColumn "en") rfl

/-- Claim C8: the language-column set never shrinks — `add_language`
only extends the schema, and the merge and registrar operations leave it
unchanged — and `add_language` is idempotent: a second call with the
same identifier leaves the store exactly as after the first call. -/
theorem schema_monotone_and_idempotent :
    (∀ db l db', add_language db l = .ok db' → db.schema <+: db'.schema) ∧
    (∀ db l db', add_language db l = .ok db' → add_language db' l = .ok db') ∧
    (∀ db item fid db', add_text_item db item fid = .ok db' → db'.schema = db.schema) ∧
    (∀ db proj path db' i, add_file db proj path = .ok (db', i) → db'.schema = db.schema) := by
  refine ⟨?_, ?_, ?_, ?_⟩
  · intro db l db' h
    rw [add_language_eq] at h
    injection h with h
    subst h
    unfold addLangResult
    split
    · exact ⟨[l], rfl⟩
    · exact List.prefix_refl _
  · intro db l db' h
    rw [add_language_eq] at h
    injection h with h
    subst h
    rw [add_language_eq]
    congr 1
    unfold addLangResult
    by_cases hcond : (validIdent l && !(db.schema.contains l || fixedColumns.contains l)) = true
    · rw [if_pos hcond]
      rw [if_neg ?_]
      simp only [Bool.and_eq_true, Bool.not_eq_true', Bool.or_eq_false_iff] at hcond ⊢
      intro hc
      have : l ∈ db.schema ++ [l] := List.mem_append_right _ (List.mem_singleton.mpr rfl)
      have hcontains : (db.schema ++ [l]).contains l = true := List.elem_eq_true_of_mem this
      rw [hc.2.1] at hcontains
      exact Bool.false_ne_true hcontains
    · rw [if_neg hcond, if_neg hcond]
  · intro db item fid db' h
    exact (mergeTrans_frame fid item.position item.description
      (format_language item.base.loc) item.base.content item.trans db db' h).1
  · intro db proj path db' i h
    unfold add_file at h
    cases hf : db.files.find? (fun r => path == some r.path) with
    | some r =>
      simp only [hf, Except.ok.injEq, Prod.mk.injEq] at h
      rw [← h.1]
    | none =>
      simp only [hf] at h
      cases proj with
      | none => simp at h
      | some pr =>
        cases path with
        | none => simp at h
        | some p =>
          simp only [Except.ok.injEq, Prod.mk.injEq] at h
          rw [← h.1]

/-- Witness for `schema_monotone_and_idempotent`: the schema grows from
`["en"]` to `["en", "fr"]` when `fr` is added, a second `fr` call is a
no-op, and a merge leaves the schema unchanged. -/
theorem schema_monotone_and_idempotent_witness :
    (create_table.schema <+: dbEnFr.schema) ∧
    add_language dbEnFr "fr" = .ok dbEnFr ∧
    dbItemGood.schema = dbFrFile.schema := by
  have h1 : add_language create_table "fr" = .ok dbEnFr := rfl
  refine ⟨schema_monotone_and_idempotent.1 create_table "fr" dbEnFr h1,
          schema_monotone_and_idempotent.2.1 create_table "fr" dbEnFr h1, ?_⟩
  have h2 : add_text_item dbFrFile itemGood 1 = .ok dbItemGood := rfl
  exact schema_monotone_and_idempotent.2.2.1 dbFrFile itemGood 1 dbItemGood h2


/-- Claim C6: registering the same path twice — with equal or different
project arguments — returns the same file id, changes nothing in the
store (no duplicate `Files` row), and on a first-time registration the
stored row keeps the first registrant's project. -/
theorem file_identity_stable (db db1 : DB) (p1 p2 path : Option String) (i : Nat)
    (h : add_file db p1 path = .ok (db1, i)) :
    add_file db1 p2 path = .ok (db1, i) ∧
    (∀ proj, p1 = some proj →
      db.files.find? (fun r => path == some r.path) = none →
      ∃ row, db1.files.find? (fun r => path == some r.path) = some row ∧
        row.id = i ∧ row.project = proj) := by
  unfold add_file at h ⊢
  cases hf : db.files.find? (fun r => path == some r.path) with
  | some r =>
    simp only [hf, Except.ok.injEq, Prod.mk.injEq] at h
    obtain ⟨h1, h2⟩ := h
    subst h1; subst h2
    refine ⟨by rw [hf], ?_⟩
    intro proj hp hnone
    exact absurd hnone (by simp)
  | none =>
    simp only [hf] at h
    cases p1 with
    | none => simp at h
    | some pr =>
      cases path with
      | none => simp at h
      | some p =>
        simp only [Except.ok.injEq, Prod.mk.injEq] at h
        obtain ⟨h1, h2⟩ := h
        subst h2
        have hfind : db1.files.find? (fun r => (some p : Option String) == some r.path) =
            some ⟨db.nextFileId, pr, p⟩ := by
          rw [← h1]
          simp only [List.find?_append, hf]
          simp [List.find?]
        refine ⟨?_, ?_⟩
        · rw [hfind, ← h1]
        · intro proj hp _
          injection hp with hp
          subst hp
          exact ⟨⟨db.nextFileId, pr, p⟩, hfind, rfl, rfl⟩

/-- Witness for `file_identity_stable`: path `A/B.strings` registered
under project `App` and then under project `Other` — same id `1`, the
store unchanged, the stored project still `App`. -/
theorem file_identity_stable_witness :
    add_file dbFileApp (some "Other") (some "A/B.strings") = .ok (dbFileApp, 1) ∧
    (∃ row, dbFileApp.files.find?
        (fun r => (some "A/B.strings" : Option String) == some r.path) = some row ∧
      row.id = 1 ∧ row.project = "App") := by
  have h : add_file create_table (some "App") (some "A/B.strings") = .ok (dbFileApp, 1) := rfl
  exact ⟨(file_identity_stable create_table dbFileApp (some "App") (some "Other")
            (some "A/B.strings") 1 h).1,
         (file_identity_stable create_table dbFileApp (some "App") (some "Other")
            (some "A/B.strings") 1 h).2 "App" rfl rfl⟩

/-- Claim C2: when the merge's update step finds an existing record at
`(fileId, position)`, the merge is a pure per-row rewrite of the target
language column: every row keeps its identity, and every language column
other than the target — in particular the base-language column whenever
the target differs from it — is left unchanged. -/
theorem merge_update_frame (db db' : DB) (fid : Nat) (pos desc : Option String)
    (bL : String) (bC : Option String) (tL : String) (tC : Option String)
    (n : Nat) (ins : Bool)
    (h : merge1 db fid pos desc bL bC tL tC = .ok (db', n, ins))
    (hn : n ≠ 0) :
    db'.locs = db.locs.map (applyUpdate tL tC fid pos) ∧
    ∀ r : LocRow, ∀ c : String, c ≠ tL →
      getCol (applyUpdate tL tC fid pos r).langs c = getCol r.langs c ∧
      (applyUpdate tL tC fid pos r).file_id = r.file_id ∧
      (applyUpdate tL tC fid pos r).position = r.position ∧
      (applyUpdate tL tC fid pos r).description = r.description := by
  obtain ⟨dbu, hu, hcase⟩ := merge1_cases db db' fid pos desc bL bC tL tC n ins h
  rcases hcase with ⟨-, -, rfl⟩ | ⟨hn0, -, -⟩
  · obtain ⟨hdbu, -, -, -⟩ := updateLoc_ok db db' tL tC fid pos n hu
    subst hdbu
    refine ⟨rfl, ?_⟩
    intro r c hc
    refine ⟨?_, (applyUpdate_fields tL tC fid pos r).1,
      (applyUpdate_fields tL tC fid pos r).2.1,
      (applyUpdate_fields tL tC fid pos r).2.2⟩
    unfold applyUpdate
    split
    · exact getCol_setCol_ne tL c tC hc r.langs
    · rfl
  · exact absurd hn0 hn

/-- Witness for `merge_update_frame`, at the spec's scenario: after the
`fr` merge and then the `de` merge of the same `(1, "0")` slot, exactly
one record holds `en = Hello`, `fr = Bonjour`, `de = Hallo`, and the
`de` merge left every non-`de` column of every row unchanged. -/
theorem merge_update_frame_witness :
    dbScenarioDe.locs = [⟨1, "0", some "title",
      [("en", some "Hello"), ("fr", some "Bonjour"), ("de", some "Hallo")]⟩] ∧
    (dbScenarioDe.locs = dbScenarioFr.locs.map (applyUpdate "de" (some "Hallo") 1 (some "0")) ∧
     ∀ r : LocRow, ∀ c : String, c ≠ "de" →
       getCol (applyUpdate "de" (some "Hallo") 1 (some "0") r).langs c = getCol r.langs c ∧
       (applyUpdate "de" (some "Hallo") 1 (some "0") r).file_id = r.file_id ∧
       (applyUpdate "de" (some "Hallo") 1 (some "0") r).position = r.position ∧
       (applyUpdate "de" (some "Hallo") 1 (some "0") r).description = r.description) :=
  ⟨rfl, merge_update_frame dbScenarioFr dbScenarioDe 1 (some "0") (some "title")
    "en" (some "Hello") "de" (some "Hallo") 1 false rfl (by decide)⟩

/-- Claim C4 counterexample: re-merging the `(1, "0")` slot with the new
description `second` finds the existing record (one affected row, no
insert) but the stored description remains `first` — the update
statement does not set the description column, refuting last-write-wins
for description. -/
theorem description_not_overwritten :
    merge1 dbDescFirst 1 (some "0") (some "second") "en" (some "Hello") "fr" (some "Bonjour")
      = .ok (dbDescFirst, 1, false) ∧
    dbDescFirst.locs.map (fun r => r.description) = [some "first"] :=
  ⟨rfl, rfl⟩

/-- Claim C4 (amended): the update step never touches the description
column — when the merge finds an existing record, every row keeps its
stored description; the description argument is written only when a new
row is inserted (first write wins). -/
theorem description_first_write (db db' : DB) (fid : Nat) (pos desc : Option String)
    (bL : String) (bC : Option String) (tL : String) (tC : Option String)
    (n : Nat) (ins : Bool)
    (h : merge1 db fid pos desc bL bC tL tC = .ok (db', n, ins)) :
    (n ≠ 0 → db'.locs.map (fun r => r.description) = db.locs.map (fun r => r.description)) ∧
    (n = 0 → ∃ p, pos = some p ∧
      db'.locs.map (fun r => r.description) =
        db.locs.map (fun r => r.description) ++ [desc]) := by
  obtain ⟨dbu, hu, hcase⟩ := merge1_cases db db' fid pos desc bL bC tL tC n ins h
  obtain ⟨hdbu, hcount, -, -⟩ := updateLoc_ok db dbu tL tC fid pos n hu
  rcases hcase with ⟨hn, -, rfl⟩ | ⟨hn0, -, hi⟩
  · subst hdbu
    refine ⟨fun _ => ?_, fun h0 => absurd h0 hn⟩
    simp only [List.map_map]
    congr 1
    funext r
    exact (applyUpdate_fields tL tC fid pos r).2.2
  · have hcount0 : db.locs.countP (fun r => rowMatch fid pos r) = 0 := hcount.symm.trans hn0
    have hdbu' : dbu = db := by
      rw [hdbu, map_applyUpdate_eq_self tL tC fid pos db.locs hcount0]
    rw [hdbu'] at hi
    obtain ⟨p, hp, hdb', -, -, -⟩ := insertLoc_ok db db' fid pos desc bL bC tL tC hi
    subst hdb'
    refine ⟨fun hne => absurd hn0 hne, fun _ => ⟨p, hp, ?_⟩⟩
    simp [List.map_append]

/-- Witness for `description_first_write`: the first merge into `dbEnFr`
inserts the row and stores the supplied description `first`. -/
theorem description_first_write_witness :
    ∃ p, (some "0" : Option String) = some p ∧
      dbDescFirst.locs.map (fun r => r.description) =
        dbFrFile.locs.map (fun r => r.description) ++ [some "first"] :=
  (description_first_write dbFrFile dbDescFirst 1 (some "0") (some "first")
    "en" (some "Hello") "fr" (some "Bonjour") 0 true rfl).2 rfl

theorem merge1_noDup (db db' : DB) (fid : Nat) (pos desc : Option String)
    (bL : String) (bC : Option String) (tL : String) (tC : Option String)
    (n : Nat) (ins : Bool)
    (hd : noDupKeys db.locs = true)
    (h : merge1 db fid pos desc bL bC tL tC = .ok (db', n, ins)) :
    noDupKeys db'.locs = true := by
  obtain ⟨dbu, hu, hcase⟩ := merge1_cases db db' fid pos desc bL bC tL tC n ins h
  rcases hcase with ⟨-, -, rfl⟩ | ⟨hn0, -, hi⟩
  · obtain ⟨hdbu, -, -, -⟩ := updateLoc_ok db db' tL tC fid pos n hu
    subst hdbu
    simp only [noDupKeys_map_applyUpdate]
    exact hd
  · obtain ⟨hdbu, hcount, -, -⟩ := updateLoc_ok db dbu tL tC fid pos n hu
    have hcount0 : db.locs.countP (fun r => rowMatch fid pos r) = 0 :=
      hcount.symm.trans hn0
    have hdbu' : dbu = db := by
      rw [hdbu, map_applyUpdate_eq_self tL tC fid pos db.locs hcount0]
    rw [hdbu'] at hi
    obtain ⟨p, hp, hdb', hany, -, -⟩ := insertLoc_ok db db' fid pos desc bL bC tL tC hi
    subst hdb'
    apply noDupKeys_append_one
    · exact hd
    · intro r hr
      rw [List.any_eq_false] at hany
      have := hany r hr
      simp only [Bool.and_eq_true, beq_iff_eq, not_and] at this ⊢
      exact this

theorem mergeTrans_noDup (fid : Nat) (pos desc : Option String) (bL : String)
    (bC : Option String) : ∀ (ts : List Tran) (db db' : DB),
    noDupKeys db.locs = true →
    mergeTrans db fid pos desc bL bC ts = .ok db' →
    noDupKeys db'.locs = true := by
  intro ts
  induction ts with
  | nil =>
    intro db db' hd h
    simp only [mergeTrans, Except.ok.injEq] at h
    subst h
    exact hd
  | cons t ts ih =>
    intro db db' hd h
    simp only [mergeTrans] at h
    cases hm : merge1 db fid pos desc bL bC (format_language t.loc) t.content with
    | error e => simp [hm] at h
    | ok r =>
      obtain ⟨db1, n, i⟩ := r
      simp only [hm] at h
      exact ih db1 db' (merge1_noDup db db1 fid pos desc bL bC
        (format_language t.loc) t.content n i hd hm) h

/-- Claim C3: `(file_id, position)` is a unique key — the initial store
has no duplicate keys, every merge of a text item preserves this, any
sequence of text items processed through `runItems` preserves it, and a
store without duplicate keys has at most one row matching any
`(fileId, position)` pair. -/
theorem merge_key_uniqueness :
    noDupKeys create_table.locs = true ∧
    (∀ db item fid db', noDupKeys db.locs = true →
      add_text_item db item fid = .ok db' → noDupKeys db'.locs = true) ∧
    (∀ its (db : DB) fid, noDupKeys db.locs = true →
      noDupKeys ((runItems db fid its).1).locs = true) ∧
    (∀ (db : DB) fid pos, noDupKeys db.locs = true →
      db.locs.countP (fun r => rowMatch fid pos r) ≤ 1) := by
  refine ⟨rfl, ?_, ?_, ?_⟩
  · intro db item fid db' hd h
    exact mergeTrans_noDup fid item.position item.description
      (format_language item.base.loc) item.base.content item.trans db db' hd h
  · intro its
    induction its with
    | nil => intro db fid hd; exact hd
    | cons it its ih =>
      intro db fid hd
      simp only [runItems]
      cases ha : add_text_item db it fid with
      | error e => exact hd
      | ok db1 =>
        exact ih db1 fid (mergeTrans_noDup fid it.position it.description
          (format_language it.base.loc) it.base.content it.trans db db1 hd ha)
  · intro db fid pos hd
    exact countP_rowMatch_le_one fid pos db.locs hd

/-- Witness for `merge_key_uniqueness`: after merging a text item into
`dbEnFr` the store still has no duplicate keys and at most one row
matches `(1, "0")`. -/
theorem merge_key_uniqueness_witness :
    noDupKeys dbItemGood.locs = true ∧
    dbItemGood.locs.countP (fun r => rowMatch 1 (some "0") r) ≤ 1 := by
  have hd : noDupKeys dbItemGood.locs = true :=
    merge_key_uniqueness.2.1 dbFrFile itemGood 1 dbItemGood rfl rfl
  exact ⟨hd, merge_key_uniqueness.2.2.2 dbItemGood 1 (some "0") hd⟩

/-- Claim C9 counterexample: on a store whose schema has the `fr`
column, merging a pair with base `("fr", "Bonjour")` and target
`("en", "Hello")` into an empty slot succeeds — the insert lists the
`en` column as the target, so no NOT NULL violation occurs and a record
whose base language differs from `en` is created. -/
theorem non_en_base_record_created :
    merge1 dbFrFile 1 (some "0") (some "d") "fr" (some "Bonjour") "en" (some "Hello")
      = .ok (dbBaseFr, 0, true) ∧
    dbBaseFr.locs = [⟨1, "0", some "d", [("en", some "Hello"), ("fr", some "Bonjour")]⟩] :=
  ⟨rfl, rfl⟩

/-- Claim C9 (amended): `en` is the hardcoded mandatory column, and a
merge that finds no existing row and whose base- AND target-language
identifiers both differ from `en` (with both columns present in the
schema) attempts an insert that leaves `en` NULL and fails with the
NOT NULL integrity error — no record is created by such a merge.  (When
the target language is `en` the insert supplies `en` and can succeed,
so a record whose base language differs from `en` can still be
created.) -/
theorem non_default_base_insert_fails (db : DB) (fid : Nat) (p : String)
    (desc : Option String) (bL : String) (bC : Option String) (tL : String)
    (tC : Option String)
    (hb : bL ≠ "en") (ht : tL ≠ "en")
    (hbc : checkColumn db bL = none) (htc : checkColumn db tL = none)
    (hen : "en" ∈ db.schema)
    (h0 : db.locs.countP (fun r => rowMatch fid (some p) r) = 0) :
    merge1 db fid (some p) desc bL bC tL tC = .error (.notNull "en") := by
  have htEn : (tL == "en") = false := beq_eq_false_iff_ne.mpr ht
  have hbEn' : ("en" == bL) = false := beq_eq_false_iff_ne.mpr (Ne.symm hb)
  have htEn' : ("en" == tL) = false := beq_eq_false_iff_ne.mpr (Ne.symm ht)
  have hmap : db.locs.map (applyUpdate tL tC fid (some p)) = db.locs :=
    map_applyUpdate_eq_self tL tC fid (some p) db.locs h0
  have hu : updateLoc db tL tC fid (some p) = .ok (db, 0) := by
    unfold updateLoc
    rw [htc]
    simp [htEn, hmap, h0]
  have hany : db.locs.any (fun r => r.file_id == fid && r.position == p) = false := by
    rw [List.any_eq_false]
    intro r hr
    rw [List.countP_eq_zero] at h0
    have hnr := h0 r hr
    unfold rowMatch at hnr
    simp only [Bool.and_eq_true, beq_iff_eq, not_and] at hnr ⊢
    intro h1 h2
    exact hnr h1 (by rw [h2])
  have hins : insertLoc db fid (some p) desc bL bC tL tC = .error (.notNull "en") := by
    have hlang : ((db.schema.map (fun c =>
        (c, if c == bL then bC else if c == tL then tC else none))).any
          (fun q => q.1 == "en" && q.2.isNone)) = true := by
      rw [List.any_eq_true]
      refine ⟨("en", none), List.mem_map.mpr ⟨"en", hen, ?_⟩, by simp⟩
      simp [hbEn', htEn']
    unfold insertLoc
    simp only [hbc, htc]
    rw [if_neg (by simp [hany]), if_pos hlang]
  unfold merge1
  rw [hu]
  simp [hins]

/-- Witness for `non_default_base_insert_fails`: with `fr` and `de`
columns present, merging base `("fr", "B")`, target `("de", "H")` into
an empty slot of `dbEnFrDe` raises the `en` NOT NULL integrity error. -/
theorem non_default_base_insert_fails_witness :
    merge1 dbEnFrDe 1 (some "0") (some "d") "fr" (some "B") "de" (some "H")
      = .error (.notNull "en") :=
  non_default_base_insert_fails dbEnFrDe 1 "0" (some "d") "fr" (some "B")
    "de" (some "H") (by decide) (by decide) rfl rfl (by decide) rfl

theorem checkColumn_none (db : DB) (c : String) (h : checkColumn db c = none) :
    validIdent c = true ∧ c ∈ db.schema := by
  by_cases hv : validIdent c = true
  · by_cases hcnt : db.schema.contains c = true
    · exact ⟨hv, List.mem_of_elem_eq_true hcnt⟩
    · exfalso
      unfold checkColumn at h
      rw [if_neg (by simp [hv]), if_pos (by simp [Bool.not_eq_true] at hcnt ⊢; exact hcnt)] at h
      exact absurd h (by simp)
  · exfalso
    unfold checkColumn at h
    rw [if_pos (by simp [Bool.not_eq_true] at hv ⊢; exact hv)] at h
    exact absurd h (by simp)

theorem applyUpdate_idem (c : String) (v : Option String) (fid : Nat)
    (pos : Option String) (r : LocRow) :
    applyUpdate c v fid pos (applyUpdate c v fid pos r) = applyUpdate c v fid pos r := by
  unfold applyUpdate
  by_cases hm : rowMatch fid pos r = true
  · rw [if_pos hm, if_pos (show rowMatch fid pos
      { r with langs := setCol r.langs c v } = true from hm)]
    simp only [setCol_idem]
  · rw [if_neg hm, if_neg hm]

theorem merge1_found_noop (db : DB) (fid : Nat) (pos desc : Option String)
    (bL : String) (bC : Option String) (tL : String) (tC : Option String)
    (hcc : checkColumn db tL = none)
    (hcnt : db.locs.countP (fun r => rowMatch fid pos r) = 1)
    (hA : (tL == "en" && tC.isNone) = false)
    (hfix : db.locs.map (applyUpdate tL tC fid pos) = db.locs) :
    merge1 db fid pos desc bL bC tL tC = .ok (db, 1, false) := by
  have hu2 : updateLoc db tL tC fid pos = .ok (db, 1) := by
    unfold updateLoc
    rw [hcc]
    simp only [hcnt, hA, Bool.false_and, Bool.and_false]
    rw [if_neg (by simp)]
    rw [hfix]
  unfold merge1
  rw [hu2]
  rfl

/-- Claim C1 counterexample: merging the tuple with base
`("en", "Hello")` and target `("en", NULL)` into the store holding only
the registered file `1`
succeeds (the insert keeps the first listed value, `Hello`, for the
shared `en` column), but merging the *same* tuple a second time makes
the update set `en = NULL` on the now-matching row, which raises the
NOT NULL integrity error instead of reporting one affected row — the
merge is not idempotent for every tuple whose language columns exist. -/
theorem merge_retry_not_idempotent :
    merge1 dbFileApp 1 (some "0") (some "d") "en" (some "Hello") "en" none
      = .ok (dbEnNullTarget, 0, true) ∧
    merge1 dbEnNullTarget 1 (some "0") (some "d") "en" (some "Hello") "en" none
      = .error (.notNull "en") :=
  ⟨rfl, rfl⟩

/-- Claim C1 (amended): re-merging the same tuple is a no-op that
reports one affected row and performs no insert, provided the store has
unique keys and — when the first merge inserted the row — the target
language either differs from the base language or carries the same
text (otherwise the insert stored the base text in the shared column,
first value winning, and the retry overwrites it or trips the `en`
NOT NULL check). -/
theorem merge_retry_idempotent (db db1 : DB) (fid : Nat) (pos desc : Option String)
    (bL : String) (bC : Option String) (tL : String) (tC : Option String)
    (n1 : Nat) (ins1 : Bool)
    (hU : noDupKeys db.locs = true)
    (h1 : merge1 db fid pos desc bL bC tL tC = .ok (db1, n1, ins1))
    (hbt : ins1 = true → bL = tL → bC = tC) :
    merge1 db1 fid pos desc bL bC tL tC = .ok (db1, 1, false) := by
  obtain ⟨dbu, hu, hcase⟩ := merge1_cases db db1 fid pos desc bL bC tL tC n1 ins1 h1
  rcases hcase with ⟨hn, hins, rfl⟩ | ⟨hn0, hins, hi⟩
  · -- update path: the row already existed
    obtain ⟨hdbu, hcount, hcc, hsafe⟩ := updateLoc_ok db db1 tL tC fid pos n1 hu
    have hle := countP_rowMatch_le_one fid pos db.locs hU
    have hn1 : n1 = 1 := by
      have h1' : n1 ≤ 1 := by rw [hcount]; exact hle
      omega
    subst hn1
    have hc' : db.locs.countP (fun r => rowMatch fid pos r) = 1 := hcount.symm
    rw [hc'] at hsafe
    have hA : (tL == "en" && tC.isNone) = false := by
      simpa using hsafe
    subst hdbu
    apply merge1_found_noop
    · exact hcc
    · simp only [countP_map_applyUpdate]
      exact hc'
    · exact hA
    · show (db.locs.map (applyUpdate tL tC fid pos)).map (applyUpdate tL tC fid pos)
        = db.locs.map (applyUpdate tL tC fid pos)
      rw [List.map_map]
      have hff : (applyUpdate tL tC fid pos) ∘ (applyUpdate tL tC fid pos)
          = applyUpdate tL tC fid pos := by
        funext r
        exact applyUpdate_idem tL tC fid pos r
      rw [hff]
  · -- insert path: the first merge created the row
    obtain ⟨hdbu, hcount, hcc, -⟩ := updateLoc_ok db dbu tL tC fid pos n1 hu
    have hcount0 : db.locs.countP (fun r => rowMatch fid pos r) = 0 :=
      hcount.symm.trans hn0
    have hdbu' : dbu = db := by
      rw [hdbu, map_applyUpdate_eq_self tL tC fid pos db.locs hcount0]
    rw [hdbu'] at hi
    obtain ⟨p, hp, hdb1, -, hnn, -⟩ := insertLoc_ok db db1 fid pos desc bL bC tL tC hi
    subst hp
    have hbt' : bL = tL → bC = tC := hbt hins
    have hA : (tL == "en" && tC.isNone) = false := by
      by_cases htl : tL = "en"
      · subst htl
        obtain ⟨-, hen⟩ := checkColumn_none db "en" hcc
        cases htC : tC with
        | some x => simp
        | none =>
          exfalso
          subst htC
          rw [List.any_eq_false] at hnn
          have hmem : (("en" : String),
              (if ("en" : String) == bL then bC
               else if ("en" : String) == ("en" : String) then none else none))
              ∈ db.schema.map (fun c =>
                (c, if c == bL then bC else if c == ("en" : String) then none else none)) :=
            List.mem_map.mpr ⟨"en", hen, rfl⟩
          have hq := hnn _ hmem
          by_cases hbl : (("en" : String) == bL) = true
          · have hbc0 : bC = none := hbt' (beq_iff_eq.mp hbl).symm
            simp [hbl, hbc0] at hq
          · simp [hbl] at hq
      · simp [beq_eq_false_iff_ne.mpr htl]
    have hfix : setCol (db.schema.map (fun c =>
        (c, if c == bL then bC else if c == tL then tC else none))) tL tC
        = db.schema.map (fun c =>
        (c, if c == bL then bC else if c == tL then tC else none)) := by
      apply setCol_eq_self
      intro q hq hqt
      obtain ⟨c, hc, rfl⟩ := List.mem_map.mp hq
      simp only at hqt
      simp only [hqt]
      by_cases hbl : (tL == bL) = true
      · rw [if_pos hbl]
        exact hbt' (beq_iff_eq.mp hbl).symm
      · rw [if_neg hbl, if_pos (by simp)]
    subst hdb1
    apply merge1_found_noop
    · exact hcc
    · show (db.locs ++ [_]).countP (fun r => rowMatch fid (some p) r) = 1
      rw [List.countP_append, hcount0]
      simp [rowMatch]
    · exact hA
    · show (db.locs ++ [_]).map (applyUpdate tL tC fid (some p)) = db.locs ++ [_]
      rw [List.map_append, map_applyUpdate_eq_self tL tC fid (some p) db.locs hcount0]
      congr 1
      simp only [List.map_cons, List.map_nil]
      congr 1
      unfold applyUpdate
      rw [if_pos (by simp [rowMatch])]
      simp only [hfix]

/-- Witness for `merge_retry_idempotent`: re-merging the `fr` pair of
the spec's retry scenario reports one affected row, no insert, and an
unchanged store. -/
theorem merge_retry_idempotent_witness :
    merge1 dbDescFirst 1 (some "0") (some "first") "en" (some "Hello") "fr" (some "Bonjour")
      = .ok (dbDescFirst, 1, false) :=
  merge_retry_idempotent dbFrFile dbDescFirst 1 (some "0") (some "first") "en" (some "Hello")
    "fr" (some "Bonjour") 0 true rfl rfl (fun _ h => absurd h (by decide))

/-- Claim C10: per-text-item atomicity.  If every text item of `pre`
commits and the next item `bad` raises on one of its translation pairs,
the run stops with exactly the store committed after `pre`: none of
`bad`'s writes (even pairs merged before the failing one, rolled back
with the transaction) and none of the later items' writes persist. -/
theorem text_item_atomicity (dbp : DB) (fid : Nat) (pre : List TextItem)
    (bad : TextItem) (rest : List TextItem) (e : SqlError) : ∀ db : DB,
    runItems db fid pre = (dbp, none) →
    add_text_item dbp bad fid = .error e →
    runItems db fid (pre ++ bad :: rest) = (dbp, some e) := by
  induction pre with
  | nil =>
    intro db h1 h2
    simp only [runItems, Prod.mk.injEq] at h1
    obtain ⟨rfl, -⟩ := h1
    simp only [List.nil_append, runItems, h2]
  | cons it pre ih =>
    intro db h1 h2
    simp only [runItems] at h1
    simp only [List.cons_append, runItems]
    cases ha : add_text_item db it fid with
    | error e' =>
      rw [ha] at h1
      exact absurd h1 (by simp)
    | ok db1 =>
      rw [ha] at h1
      exact ih db1 h1 h2

/-- Witness for `text_item_atomicity`: after `itemGood` commits,
`itemBad`'s first pair merges into an intermediate state different from
the committed one, its second pair hits the missing `de` column, and
the run ends with exactly the post-`itemGood` store plus the error. -/
theorem text_item_atomicity_witness :
    runItems dbFrFile 1 ([itemGood] ++ itemBad :: []) =
      (dbItemGood, some (.noSuchColumn "de")) ∧
    merge1 dbItemGood 1 (some "1") (some "e") "en" (some "Bye") "fr" (some "Au revoir")
      = .ok (dbPartialBad, 0, true) ∧
    dbPartialBad ≠ dbItemGood :=
  ⟨text_item_atomicity dbItemGood 1 [itemGood] itemBad [] (.noSuchColumn "de")
      dbFrFile rfl rfl,
   rfl, by decide⟩

theorem mergeTransEv_no_ensure (fid : Nat) (pos desc : Option String) (bL : String)
    (bC : Option String) : ∀ (ts : List Tran) (db : DB),
    ∀ e ∈ (mergeTransEv db fid pos desc bL bC ts).1, e.isEnsure = false := by
  intro ts
  induction ts with
  | nil =>
    intro db e he
    simp [mergeTransEv] at he
  | cons t ts ih =>
    intro db e he
    simp only [mergeTransEv] at he
    cases hm : merge1 db fid pos desc bL bC (format_language t.loc) t.content with
    | error err =>
      simp only [hm] at he
      simp at he
      rw [he]
      rfl
    | ok r =>
      obtain ⟨db1, n, i⟩ := r
      simp only [hm] at he
      simp only [List.mem_cons] at he
      rcases he with rfl | hmem
      · rfl
      · exact ih db1 e hmem

theorem itemsEv_no_ensure (fid : Nat) : ∀ (its : List TextItem) (db : DB),
    ∀ e ∈ (itemsEv db fid its).1, e.isEnsure = false := by
  intro its
  induction its with
  | nil =>
    intro db e he
    simp [itemsEv] at he
  | cons it its ih =>
    intro db e he
    simp only [itemsEv] at he
    cases ha : add_text_itemEv db it fid with
    | mk evs res =>
      simp only [ha] at he
      cases res with
      | error err =>
        simp only at he
        have : e ∈ (add_text_itemEv db it fid).1 := by rw [ha]; exact he
        exact mergeTransEv_no_ensure fid it.position it.description
          (format_language it.base.loc) it.base.content it.trans db e this
      | ok db1 =>
        simp only [List.mem_append] at he
        rcases he with hmem | hmem
        · have : e ∈ (add_text_itemEv db it fid).1 := by rw [ha]; exact hmem
          exact mergeTransEv_no_ensure fid it.position it.description
            (format_language it.base.loc) it.base.content it.trans db e this
        · exact ih db1 e hmem

theorem filesEv_no_ensure (project : Option String) : ∀ (fs : List LgFile) (db : DB),
    ∀ e ∈ (filesEv db project fs).1, e.isEnsure = false := by
  intro fs
  induction fs with
  | nil =>
    intro db e he
    simp [filesEv] at he
  | cons f fs ih =>
    intro db e he
    simp only [filesEv] at he
    cases ha : add_file db project f.filepath with
    | error err =>
      simp only [ha] at he
      simp at he
    | ok r =>
      obtain ⟨db1, fid⟩ := r
      simp only [ha] at he
      cases hb : itemsEv db1 fid f.textItems with
      | mk evs res =>
        simp only [hb] at he
        cases res with
        | error err =>
          simp only at he
          have : e ∈ (itemsEv db1 fid f.textItems).1 := by rw [hb]; exact he
          exact itemsEv_no_ensure fid f.textItems db1 e this
        | ok db2 =>
          simp only [List.mem_append] at he
          rcases he with hmem | hmem
          · have hm : e ∈ (itemsEv db1 fid f.textItems).1 := by rw [hb]; exact hmem
            exact itemsEv_no_ensure fid f.textItems db1 e hm
          · exact ih db2 e hmem

theorem docsEv_no_ensure : ∀ (ds : List LgDoc) (db : DB),
    ∀ e ∈ (docsEv db ds).1, e.isEnsure = false := by
  intro ds
  induction ds with
  | nil =>
    intro db e he
    simp [docsEv] at he
  | cons d ds ih =>
    intro db e he
    simp only [docsEv, add_localization_projectEv] at he
    cases ha : filesEv db d.projName d.files with
    | mk evs res =>
      simp only [ha] at he
      cases res with
      | error err =>
        simp only at he
        have : e ∈ (filesEv db d.projName d.files).1 := by rw [ha]; exact he
        exact filesEv_no_ensure d.projName d.files db e this
      | ok db1 =>
        simp only [List.mem_append] at he
        rcases he with hmem | hmem
        · have : e ∈ (filesEv db d.projName d.files).1 := by rw [ha]; exact hmem
          exact filesEv_no_ensure d.projName d.files db e this
        · exact ih db1 e hmem

/-- Claim C5 (amended): per archive, `add_language` is called exactly
once, before any merge statement executes, and only for the language
detected from the first document's first `tran` element; no
`add_language` call is made per translation pair, and none is made for
base languages.  When language detection fails (no document, or no
`tran` in the first document), nothing at all is executed. -/
theorem convert_single_ensure (db : DB) (dmg : List LgDoc) (evs : List Event)
    (r : Except SqlError DB) (h : convert db dmg = (evs, r)) :
    (detectedLanguage dmg = none → evs = []) ∧
    (∀ lang, detectedLanguage dmg = some lang →
      ∃ rest, evs = Event.ensureLang lang :: rest ∧
        ∀ e ∈ rest, e.isEnsure = false) := by
  cases dmg with
  | nil =>
    simp only [convert, Prod.mk.injEq] at h
    refine ⟨fun _ => h.1.symm, fun lang hlang => ?_⟩
    simp [detectedLanguage] at hlang
  | cons d ds =>
    simp only [convert] at h
    cases hL : get_language d with
    | none =>
      simp only [hL, Prod.mk.injEq] at h
      refine ⟨fun _ => h.1.symm, fun lang hlang => ?_⟩
      simp [detectedLanguage, hL] at hlang
    | some lang =>
      simp only [hL, add_language_eq, Prod.mk.injEq] at h
      constructor
      · intro hnone
        simp [detectedLanguage, hL] at hnone
      · intro lang' hlang'
        have hl : lang' = lang := by
          simp [detectedLanguage, hL] at hlang'
          exact hlang'.symm
        subst hl
        exact ⟨(docsEv (addLangResult db lang') (d :: ds)).1, h.1.symm,
          docsEv_no_ensure (d :: ds) (addLangResult db lang')⟩

/-- Witness for `convert_single_ensure`, on the one-document archive
`docEnFr`: the trace starts with the single `add_language "fr"` call and
contains no other ensure call. -/
theorem convert_single_ensure_witness :
    ∃ rest, (convert create_table [docEnFr]).1 = Event.ensureLang "fr" :: rest ∧
      ∀ e ∈ rest, e.isEnsure = false :=
  (convert_single_ensure create_table [docEnFr]
    (convert create_table [docEnFr]).1 (convert create_table [docEnFr]).2 rfl).2 "fr" rfl

/-- Claim C5 counterexample: running `convert` on `docEnFr` executes a
merge whose pair is (base `en`, target `fr`), yet `add_language` is
never called for the base language `en` anywhere in the run — the only
ensure call is the single up-front one for the detected language `fr`. -/
theorem ensure_language_not_called_per_pair :
    (convert create_table [docEnFr]).1 =
      [Event.ensureLang "fr", Event.mergePair 1 (some "0") "en" "fr"] ∧
    Event.ensureLang "en" ∉ (convert create_table [docEnFr]).1 :=
  ⟨rfl, by decide⟩

end AppleLocalization
